import Mathlib

/-!
Shallow embedding of the benchmark score aggregation engine of
Easy-LLM-Score (`js/score-formulas.js` and the data-loader part of
`js/main.js`).  JavaScript numbers are modelled as exact rationals;
`Math.pow(10, e)` is modelled as the real power function; a benchmark
record is a total map from key strings to JavaScript values, where a key
that is absent from the object reads as `undefined`.
-/

namespace EasyLLMScore

/-- Value stored under a benchmark key: a number, `null`, or `undefined`
(the read of an absent key). -/
inductive BVal where
  | null : BVal
  | undef : BVal
  | num : ℚ → BVal
deriving DecidableEq, Repr

/-- JavaScript value of the `supportsVision` field (the code compares it
with `!== false`, so any value other than the boolean `false` counts as
vision-supported). -/
inductive JsVal where
  | jnull : JsVal
  | jundef : JsVal
  | jbool : Bool → JsVal
  | jnum : ℚ → JsVal
  | jstr : String → JsVal
deriving DecidableEq, Repr

/-- A benchmark record: key string to raw value, absent keys read `undef`. -/
abbrev BenchmarkRecord := String → BVal

/-- The fields of a model record that the scoring engine reads. -/
structure Model where
  benchmarks : BenchmarkRecord
  supportsVision : JsVal

/-- JavaScript `Math.round(x * 100) / 100` on a rational: round to two
decimal places, halves up. -/
def round2Q (x : ℚ) : ℚ := (⌊x * 100 + 1 / 2⌋ : ℚ) / 100

/-- JavaScript `Math.round(x * 100) / 100` on a real intermediate value,
its result read back as the exact rational it denotes. -/
noncomputable def round2R (x : ℝ) : ℚ := (⌊x * 100 + 1 / 2⌋ : ℚ) / 100

/-- JavaScript `Math.pow(10, e)` for a rational exponent. -/
noncomputable def pow10 (x : ℚ) : ℝ := (10 : ℝ) ^ (x : ℝ)

/-- The filter `s !== null && s !== undefined && s !== 0` used by
`normalizeLMArena` on the list of all models' scores. -/
def validScore : BVal → Option ℚ
  | BVal.num s => if s = 0 then none else some s
  | _ => none

/-- `normalizeLMArena(score, allScores)` from `js/score-formulas.js`:
Bradley-Terry win rate against the best score of the candidate set,
doubled onto a 0-100 scale and rounded to two decimals.  A missing own
score (`null`, `undefined` or `0`) yields `null`; an empty valid pool
yields `0`; a spread-free pool yields `100`. -/
noncomputable def normalizeLMArena (score : BVal) (allScores : List BVal) : Option ℚ :=
  match score with
  | BVal.num q =>
      if q = 0 then none
      else
        match allScores.filterMap validScore with
        | [] => some 0
        | s :: rest =>
            let maxScore := rest.foldl max s
            let minScore := rest.foldl min s
            if maxScore = minScore then some 100
            else some (round2R (1 / (1 + pow10 ((maxScore - q) / 400)) * 200))
  | _ => none

/-- One step of the accumulation loop of `weightedAverage`: the pair is
`(totalScore, totalWeight)`, a missing value contributes nothing. -/
def waStep (acc : ℚ × ℚ) (item : Option ℚ × ℚ) : ℚ × ℚ :=
  match item.1 with
  | some v => (acc.1 + v * item.2, acc.2 + item.2)
  | none => acc

/-- `weightedAverage(items)` from `js/score-formulas.js`: weighted mean of
the non-missing values, `0` when every value is missing. -/
def weightedAverage (items : List (Option ℚ × ℚ)) : ℚ :=
  let acc := items.foldl waStep (0, 0)
  if acc.2 = 0 then 0 else round2Q (acc.1 / acc.2)

/-- Modelled from the spec: the category aggregator described in words in
the specification (sum `value × weight` and `weight` only over non-missing
entries; `0` when the total weight is `0`; otherwise
`round2(sum(value×weight) / sum(weight))`), to be compared with
`weightedAverage` as embedded from the code. -/
def weightedAverageSpec (items : List (Option ℚ × ℚ)) : ℚ :=
  let presentItems := items.filter (fun it => it.1.isSome)
  let totalWeight := (presentItems.map (fun it => it.2)).sum
  let totalScore := (presentItems.map (fun it => it.1.getD 0 * it.2)).sum
  if totalWeight = 0 then 0 else round2Q (totalScore / totalWeight)

/-- `getBenchmark(benchmarks, key)`: an already-0-100 benchmark value,
with `null`, `undefined` and `0` all read as missing. -/
def getBenchmark (benchmarks : BenchmarkRecord) (key : String) : Option ℚ :=
  match benchmarks key with
  | BVal.num q => if q = 0 then none else some q
  | _ => none

/-- `SCORE_CATEGORIES` from `js/score-formulas.js` (the categories that
enter the overall average; `audio` and `video` are not among them). -/
def SCORE_CATEGORIES : List String :=
  ["general_knowledge", "expert_knowledge", "general_reasoning",
   "math_reasoning", "coding", "vision", "long_context",
   "hallucination", "natural_speech"]

/-- The per-key LM Arena normalization closure of `calculateScores`:
`normalizeLMArena(benchmarks[key], allModels.map(m => m.benchmarks?.[key]))`. -/
noncomputable def getLMArena (model : Model) (allModels : List Model) (key : String) : Option ℚ :=
  normalizeLMArena (model.benchmarks key) (allModels.map fun m => m.benchmarks key)

/-- Category `general_knowledge`: MMLU Pro(5) + GPQA Diamond(1) + LMArena-Text(2). -/
noncomputable def general_knowledge (model : Model) (allModels : List Model) : ℚ :=
  weightedAverage
    [(getBenchmark model.benchmarks "MMLU Pro", 5),
     (getBenchmark model.benchmarks "GPQA Diamond", 1),
     (getLMArena model allModels "LMArena-Text", 2)]

/-- Category `expert_knowledge`: MMLU Pro(2) + GPQA Diamond(4) + HLE(6) +
LMArena-Expert(2) + LMArena-Hard(2). -/
noncomputable def expert_knowledge (model : Model) (allModels : List Model) : ℚ :=
  weightedAverage
    [(getBenchmark model.benchmarks "MMLU Pro", 2),
     (getBenchmark model.benchmarks "GPQA Diamond", 4),
     (getBenchmark model.benchmarks "Humanity\x27s Last Exam", 6),
     (getLMArena model allModels "LMArena-Text-Expert", 2),
     (getLMArena model allModels "LMArena-Text-Hard-Prompts", 2)]

/-- Category `general_reasoning`: MMLU Pro(4) + GPQA Diamond(3) + HLE(2) +
AA-LCR(3) + LMArena-Hard(1). -/
noncomputable def general_reasoning (model : Model) (allModels : List Model) : ℚ :=
  weightedAverage
    [(getBenchmark model.benchmarks "MMLU Pro", 4),
     (getBenchmark model.benchmarks "GPQA Diamond", 3),
     (getBenchmark model.benchmarks "Humanity\x27s Last Exam", 2),
     (getBenchmark model.benchmarks "AA-LCR", 3),
     (getLMArena model allModels "LMArena-Text-Hard-Prompts", 1)]

/-- Category `math_reasoning`: GPQA Diamond(2) + AIME 2025(7) +
LMArena-Math(4) + MMLU Pro(1) + HLE(1).  The code reads the math arena
rating under the misspelt key `LMArean-Text-Math`. -/
noncomputable def math_reasoning (model : Model) (allModels : List Model) : ℚ :=
  weightedAverage
    [(getBenchmark model.benchmarks "GPQA Diamond", 2),
     (getBenchmark model.benchmarks "AIME 2025", 7),
     (getLMArena model allModels "LMArean-Text-Math", 4),
     (getBenchmark model.benchmarks "MMLU Pro", 1),
     (getBenchmark model.benchmarks "Humanity\x27s Last Exam", 1)]

/-- Category `coding`: LiveCodeBench(5) + SciCode(3) + LMArena-Coding(3). -/
noncomputable def coding (model : Model) (allModels : List Model) : ℚ :=
  weightedAverage
    [(getBenchmark model.benchmarks "LiveCodeBench", 5),
     (getBenchmark model.benchmarks "SciCode", 3),
     (getLMArena model allModels "LMArena-Text-Coding", 3)]

/-- Category `vision`: LMArena-Text(1) + MMMU Pro(8) + LMArena-Vision(3). -/
noncomputable def vision (model : Model) (allModels : List Model) : ℚ :=
  weightedAverage
    [(getLMArena model allModels "LMArena-Text", 1),
     (getBenchmark model.benchmarks "MMMU Pro", 8),
     (getLMArena model allModels "LMArena-Vision", 3)]

/-- Category `long_context`: AA-LCR(4) + LMArena-Longer(1) +
LMArena-Multi(1) + Omniscience-Acc(2) + Omniscience-Hall(4). -/
noncomputable def long_context (model : Model) (allModels : List Model) : ℚ :=
  weightedAverage
    [(getBenchmark model.benchmarks "AA-LCR", 4),
     (getLMArena model allModels "LMArena-Text-Longer-Query", 1),
     (getLMArena model allModels "LMArena-Text-Multi-Turn", 1),
     (getBenchmark model.benchmarks "AA-Omniscience Accuracy", 2),
     (getBenchmark model.benchmarks "AA-Omniscience Hallucination Rate", 4)]

/-- The inline hallucination-resistance contribution: `100 - rate` when the
raw rate is neither `null` nor `undefined` (a raw `0` is NOT treated as
missing here, unlike in `getBenchmark`), `null` otherwise. -/
def hallResistance (benchmarks : BenchmarkRecord) : Option ℚ :=
  match benchmarks "AA-Omniscience Hallucination Rate" with
  | BVal.num q => some (100 - q)
  | _ => none

/-- Category `hallucination`: AA-LCR(2) + Omniscience-Acc(4) +
(100 - Omniscience-Hall)(7) + LMArena-Longer(2). -/
noncomputable def hallucination (model : Model) (allModels : List Model) : ℚ :=
  weightedAverage
    [(getBenchmark model.benchmarks "AA-LCR", 2),
     (getBenchmark model.benchmarks "AA-Omniscience Accuracy", 4),
     (hallResistance model.benchmarks, 7),
     (getLMArena model allModels "LMArena-Text-Longer-Query", 2)]

/-- Category `natural_speech`: MMLU Pro(3) + AA-LCR(2) + LMArena-Text(2) +
LMArena-Creative(2) + LMArena-Multi(2). -/
noncomputable def natural_speech (model : Model) (allModels : List Model) : ℚ :=
  weightedAverage
    [(getBenchmark model.benchmarks "MMLU Pro", 3),
     (getBenchmark model.benchmarks "AA-LCR", 2),
     (getLMArena model allModels "LMArena-Text", 2),
     (getLMArena model allModels "LMArena-Text-Creative-Writing", 2),
     (getLMArena model allModels "LMArena-Text-Multi-Turn", 2)]

/-- The lookup `scores[c] || 0` on the computed scores object restricted to
the category ids of `SCORE_CATEGORIES` (`audio` and `video` hold `0`, every
other key reads as `undefined`, so the default `0` applies to both). -/
noncomputable def catScore (model : Model) (allModels : List Model) (c : String) : ℚ :=
  if c = "general_knowledge" then general_knowledge model allModels
  else if c = "expert_knowledge" then expert_knowledge model allModels
  else if c = "general_reasoning" then general_reasoning model allModels
  else if c = "math_reasoning" then math_reasoning model allModels
  else if c = "coding" then coding model allModels
  else if c = "vision" then vision model allModels
  else if c = "long_context" then long_context model allModels
  else if c = "hallucination" then hallucination model allModels
  else if c = "natural_speech" then natural_speech model allModels
  else 0

/-- `model.supportsVision !== false ? SCORE_CATEGORIES :
SCORE_CATEGORIES.filter(c => c !== 'vision')`. -/
def categoriesToAverage (model : Model) : List String :=
  if model.supportsVision ≠ JsVal.jbool false then SCORE_CATEGORIES
  else SCORE_CATEGORIES.filter (fun c => c ≠ "vision")

/-- The overall score of `calculateScores`: mean of the averaged category
scores, rounded to two decimals, `0` for an empty category list. -/
noncomputable def overallScore (model : Model) (allModels : List Model) : ℚ :=
  let categoryScores := (categoriesToAverage model).map (catScore model allModels)
  if 0 < categoryScores.length then
    round2Q (categoryScores.foldl (· + ·) 0 / categoryScores.length)
  else 0

/-- The scores object produced by `calculateScores` (one entry per
category id plus `overall`; `audio` and `video` are disabled and hold `0`). -/
structure Scores where
  general_knowledge : ℚ
  expert_knowledge : ℚ
  general_reasoning : ℚ
  math_reasoning : ℚ
  coding : ℚ
  vision : ℚ
  audio : ℚ
  video : ℚ
  long_context : ℚ
  hallucination : ℚ
  natural_speech : ℚ
  overall : ℚ

/-- `calculateScores(model, allModels)` from `js/score-formulas.js`. -/
noncomputable def calculateScores (model : Model) (allModels : List Model) : Scores :=
  { general_knowledge := general_knowledge model allModels
    expert_knowledge := expert_knowledge model allModels
    general_reasoning := general_reasoning model allModels
    math_reasoning := math_reasoning model allModels
    coding := coding model allModels
    vision := vision model allModels
    audio := 0
    video := 0
    long_context := long_context model allModels
    hallucination := hallucination model allModels
    natural_speech := natural_speech model allModels
    overall := overallScore model allModels }

/-! Data-loader part of `js/main.js`: percentile imputation and default
model selection. -/

/-- The filter `v && v > 0` applied to `models.map(m => m.benchmarks?.[key])`
in `calculateFallbackValues`: keeps exactly the strictly positive numbers. -/
def positiveValues (models : List Model) (key : String) : List ℚ :=
  models.filterMap fun m =>
    match m.benchmarks key with
    | BVal.num q => if 0 < q then some q else none
    | _ => none

/-- Modelled from the spec: the list of valid (non-missing, i.e. neither
`null`, absent nor `0`) raw values of a benchmark across all models, the
pool the specification says imputation draws from. -/
def validValues (models : List Model) (key : String) : List ℚ :=
  models.filterMap fun m =>
    match m.benchmarks key with
    | BVal.num q => if q = 0 then none else some q
    | _ => none

/-- JavaScript `arr.sort((a, b) => a - b)`: stable ascending sort. -/
def sortAsc (l : List ℚ) : List ℚ := l.insertionSort (· ≤ ·)

/-- The local `percentile(arr, p)` helper of `calculateFallbackValues`:
`arr[Math.min(Math.floor(arr.length * p), arr.length - 1)]`, `0` for an
empty list. -/
def percentileAt (arr : List ℚ) (p : ℚ) : ℚ :=
  if arr.length = 0 then 0
  else arr.getD (min (⌊(arr.length : ℚ) * p⌋).toNat (arr.length - 1)) 0

/-- The `{ accuracy, hallRate }` fallback pair. -/
structure FallbackValues where
  accuracy : ℚ
  hallRate : ℚ
deriving DecidableEq, Repr

/-- `calculateFallbackValues(models)` from the data loader in `js/main.js`:
30th percentile of the valid AA-Omniscience accuracy values and 70th
percentile of the valid AA-Omniscience hallucination-rate values. -/
def calculateFallbackValues (models : List Model) : FallbackValues :=
  { accuracy := percentileAt (sortAsc (positiveValues models "AA-Omniscience Accuracy")) (3 / 10)
    hallRate := percentileAt (sortAsc (positiveValues models "AA-Omniscience Hallucination Rate")) (7 / 10) }

/-- The fields of a scored model record that `selectDefaultModels` reads
(`model.scores?.overall` may be absent, `model.provider` may be absent). -/
structure DModel where
  id : String
  provider : Option String
  scoresOverall : Option ℚ
deriving DecidableEq, Repr

/-- `model.scores?.overall || 0`. -/
def overallOf (m : DModel) : ℚ := m.scoresOverall.getD 0

/-- `model.provider || 'Unknown'`. -/
def providerOf (m : DModel) : String := m.provider.getD "Unknown"

/-- The descending-by-overall comparison used by `selectDefaultModels`. -/
def byOverallDesc (a b : DModel) : Prop := overallOf b ≤ overallOf a

instance : DecidableRel byOverallDesc := fun a b => inferInstanceAs (Decidable (_ ≤ _))

/-- `[...models].sort((a, b) => (b.scores?.overall || 0) - (a.scores?.overall || 0))`:
stable descending sort by overall score. -/
def sortByOverallDesc (models : List DModel) : List DModel :=
  models.insertionSort byOverallDesc

/-- The selection loop of `selectDefaultModels`: `totalSelected` mirrors
`selected.length`, `providerCount` the per-provider running counts; the
loop breaks once `selected.length >= maxModels` and otherwise selects a
model exactly when its provider count is still below `maxPerProvider`. -/
def selectGo (l : List DModel) (maxModels maxPerProvider totalSelected : ℕ)
    (providerCount : String → ℕ) : List DModel :=
  match l with
  | [] => []
  | m :: rest =>
      if maxModels ≤ totalSelected then []
      else
        let p := providerOf m
        if providerCount p < maxPerProvider then
          m :: selectGo rest maxModels maxPerProvider (totalSelected + 1)
            (fun q => if q = p then providerCount p + 1 else providerCount q)
        else selectGo rest maxModels maxPerProvider totalSelected providerCount

/-- Modelled from the spec: the walk described in the specification, which
skips (rather than stops at) a model once the running total of selected
models has reached `maxModels`, selecting a model exactly when both the
running total and its provider's running count are below their caps. -/
def selectGoSpec (l : List DModel) (maxModels maxPerProvider totalSelected : ℕ)
    (providerCount : String → ℕ) : List DModel :=
  match l with
  | [] => []
  | m :: rest =>
      let p := providerOf m
      if totalSelected < maxModels ∧ providerCount p < maxPerProvider then
        m :: selectGoSpec rest maxModels maxPerProvider (totalSelected + 1)
          (fun q => if q = p then providerCount p + 1 else providerCount q)
      else selectGoSpec rest maxModels maxPerProvider totalSelected providerCount

/-- `selectDefaultModels(models, maxModels = 20, maxPerProvider = 4)` from
the data loader in `js/main.js` (the returned `Set` of ids is modelled as
the list of selected ids in selection order). -/
def selectDefaultModels (models : List DModel) (maxModels : ℕ := 20)
    (maxPerProvider : ℕ := 4) : List String :=
  (selectGo (sortByOverallDesc models) maxModels maxPerProvider 0 (fun _ => 0)).map (·.id)

/-- The number of models of a given provider in a list. -/
def countProvider (l : List DModel) (X : String) : ℕ :=
  l.countP (fun m => decide (providerOf m = X))

instance : IsTotal DModel byOverallDesc :=
  ⟨fun a b => le_total (overallOf b) (overallOf a)⟩

instance : IsTrans DModel byOverallDesc :=
  ⟨fun _ _ _ hab hbc => le_trans hbc hab⟩

/-- Twelve scored models: ten of provider `X` outranking two models of
other providers (concrete test data). -/
def exModelsC6 : List DModel :=
  [⟨"x1", some "X", some 99⟩, ⟨"x2", some "X", some 98⟩, ⟨"x3", some "X", some 97⟩,
   ⟨"x4", some "X", some 96⟩, ⟨"x5", some "X", some 95⟩, ⟨"x6", some "X", some 94⟩,
   ⟨"x7", some "X", some 93⟩, ⟨"x8", some "X", some 92⟩, ⟨"x9", some "X", some 91⟩,
   ⟨"x10", some "X", some 90⟩, ⟨"y1", some "Y", some 50⟩, ⟨"y2", some "Z", some 40⟩]

/-- A model record holding a single AA-Omniscience accuracy value (used as
concrete test data). -/
def mkAccModel (q : ℚ) : Model :=
  { benchmarks := fun k => if k = "AA-Omniscience Accuracy" then BVal.num q else BVal.null
    supportsVision := JsVal.jundef }

/-- Five models whose valid AA-Omniscience accuracy values are
`[10, 20, 30, 40, 50]`. -/
def exModelsC7 : List Model :=
  [mkAccModel 10, mkAccModel 20, mkAccModel 30, mkAccModel 40, mkAccModel 50]

/-- A model with every benchmark missing and `supportsVision: false`. -/
def nullModelNoVision : Model :=
  { benchmarks := fun _ => BVal.null, supportsVision := JsVal.jbool false }

/-- A model with every benchmark missing and `supportsVision` absent. -/
def nullModelVision : Model :=
  { benchmarks := fun _ => BVal.null, supportsVision := JsVal.jundef }

/-- The keys `calculateScores` reads directly as absolute 0-100 benchmark
values (every key it uses other than the LM Arena ratings, which are
normalized). -/
def absoluteKeys : List String :=
  ["MMLU Pro", "GPQA Diamond", "Humanity\x27s Last Exam", "AA-LCR", "AIME 2025",
   "LiveCodeBench", "SciCode", "MMMU Pro", "AA-Omniscience Accuracy",
   "AA-Omniscience Hallucination Rate"]

/-- A model whose only benchmark value is a finite, non-negative
`MMLU Pro` score of `200`. -/
def badModel : Model :=
  { benchmarks := fun k => if k = "MMLU Pro" then BVal.num 200 else BVal.null
    supportsVision := JsVal.jundef }

/-- An item of a `weightedAverage` call whose value, when present, lies in
`[0, 100]`, and whose weight is non-negative. -/
def okItem (it : Option ℚ × ℚ) : Prop :=
  (∀ v : ℚ, it.1 = some v → 0 ≤ v ∧ v ≤ 100) ∧ 0 ≤ it.2

/-! Helper lemmas. -/

/-- Accumulating the weighted-average loop from an arbitrary start only
shifts the two running sums. -/
theorem waFold_shift (items : List (Option ℚ × ℚ)) : ∀ s w : ℚ,
    items.foldl waStep (s, w)
      = (s + (items.foldl waStep (0, 0)).1, w + (items.foldl waStep (0, 0)).2) := by
  induction items with
  | nil => intro s w; simp
  | cons it rest ih =>
      intro s w
      rcases it with ⟨v, wt⟩
      cases v with
      | none => simpa [waStep] using ih s w
      | some x =>
          simp only [List.foldl_cons, waStep]
          rw [ih (s + x * wt) (w + wt), ih (0 + x * wt) (0 + wt)]
          simp [Prod.ext_iff]
          constructor <;> ring

/-- The accumulated score equals the sum of `value × weight` over the
non-missing items. -/
theorem waFold_fst (items : List (Option ℚ × ℚ)) :
    (items.foldl waStep (0, 0)).1
      = ((items.filter (fun it => it.1.isSome)).map (fun it => it.1.getD 0 * it.2)).sum := by
  induction items with
  | nil => simp
  | cons it rest ih =>
      rcases it with ⟨v, wt⟩
      cases v with
      | none => simpa [waStep] using ih
      | some x =>
          simp only [List.foldl_cons, waStep]
          rw [waFold_shift rest (0 + x * wt) (0 + wt)]
          simp
          exact ih

/-- The accumulated weight equals the sum of the weights over the
non-missing items. -/
theorem waFold_snd (items : List (Option ℚ × ℚ)) :
    (items.foldl waStep (0, 0)).2
      = ((items.filter (fun it => it.1.isSome)).map (fun it => it.2)).sum := by
  induction items with
  | nil => simp
  | cons it rest ih =>
      rcases it with ⟨v, wt⟩
      cases v with
      | none => simpa [waStep] using ih
      | some x =>
          simp only [List.foldl_cons, waStep]
          rw [waFold_shift rest (0 + x * wt) (0 + wt)]
          simp
          exact ih

/-- Evaluation rule for two-decimal rounding of a rational. -/
theorem round2Q_eq (x : ℚ) (z : ℤ) (h1 : (z : ℚ) ≤ x * 100 + 1 / 2)
    (h2 : x * 100 + 1 / 2 < z + 1) : round2Q x = (z : ℚ) / 100 := by
  unfold round2Q
  rw [Int.floor_eq_iff.mpr ⟨h1, h2⟩]

/-- Evaluation rule for two-decimal rounding of a real intermediate value. -/
theorem round2R_eq (x : ℝ) (z : ℤ) (h1 : (z : ℝ) ≤ x * 100 + 1 / 2)
    (h2 : x * 100 + 1 / 2 < z + 1) : round2R x = (z : ℚ) / 100 := by
  unfold round2R
  rw [Int.floor_eq_iff.mpr ⟨h1, h2⟩]

theorem pow10_zero : pow10 0 = 1 := by
  simp [pow10]

theorem pow10_pos (x : ℚ) : 0 < pow10 x :=
  Real.rpow_pos_of_pos (by norm_num) _

theorem one_le_pow10 {x : ℚ} (h : 0 ≤ x) : 1 ≤ pow10 x := by
  have h0 : (10 : ℝ) ^ (0 : ℝ) ≤ (10 : ℝ) ^ (x : ℝ) :=
    Real.rpow_le_rpow_of_exponent_le (by norm_num) (by exact_mod_cast h)
  simpa [pow10] using h0

theorem round2R_hundred : round2R (100 : ℝ) = 100 := by
  rw [round2R_eq 100 10000 (by norm_num) (by norm_num)]
  norm_num

/-- The starting value never exceeds a `foldl max`. -/
theorem init_le_foldl_max : ∀ (l : List ℚ) (s : ℚ), s ≤ l.foldl max s := by
  intro l
  induction l with
  | nil => intro s; simp
  | cons b t ih =>
      intro s
      calc s ≤ max s b := le_max_left s b
        _ ≤ t.foldl max (max s b) := ih (max s b)
        _ = (b :: t).foldl max s := by simp

/-- Every member of the list is below its `foldl max`. -/
theorem mem_le_foldl_max : ∀ (l : List ℚ) (s a : ℚ), a ∈ l → a ≤ l.foldl max s := by
  intro l
  induction l with
  | nil => intro s a ha; cases ha
  | cons b t ih =>
      intro s a ha
      simp only [List.foldl_cons]
      rcases List.mem_cons.mp ha with h | h
      · subst h
        exact le_trans (le_max_right s a) (init_le_foldl_max t (max s a))
      · exact ih (max s b) a h

/-- A `foldl max` stays below any common upper bound. -/
theorem foldl_max_le : ∀ (l : List ℚ) (s c : ℚ), s ≤ c → (∀ a ∈ l, a ≤ c) →
    l.foldl max s ≤ c := by
  intro l
  induction l with
  | nil => intro s c hs _; simpa using hs
  | cons b t ih =>
      intro s c hs h
      simp only [List.foldl_cons]
      exact ih (max s b) c (max_le hs (h b (List.mem_cons_self b t)))
        (fun a ha => h a (List.mem_cons_of_mem b ha))

/-- A `foldl min` never exceeds the starting value. -/
theorem foldl_min_le_init : ∀ (l : List ℚ) (s : ℚ), l.foldl min s ≤ s := by
  intro l
  induction l with
  | nil => intro s; simp
  | cons b t ih =>
      intro s
      calc (b :: t).foldl min s = t.foldl min (min s b) := by simp
        _ ≤ min s b := ih (min s b)
        _ ≤ s := min_le_left s b

/-- A `foldl min` is below every member of the list. -/
theorem foldl_min_le_mem : ∀ (l : List ℚ) (s a : ℚ), a ∈ l → l.foldl min s ≤ a := by
  intro l
  induction l with
  | nil => intro s a ha; cases ha
  | cons b t ih =>
      intro s a ha
      simp only [List.foldl_cons]
      rcases List.mem_cons.mp ha with h | h
      · subst h
        exact le_trans (foldl_min_le_init t (min s a)) (min_le_right s a)
      · exact ih (min s b) a h

/-- Folding `max` over copies of the start leaves the start. -/
theorem foldl_max_all_eq {s : ℚ} : ∀ {rest : List ℚ}, (∀ a ∈ rest, a = s) →
    rest.foldl max s = s := by
  intro rest
  induction rest with
  | nil => intro _; rfl
  | cons b t ih =>
      intro h
      have hb : b = s := h b (List.mem_cons_self b t)
      simp only [List.foldl_cons, hb, max_self]
      exact ih fun a ha => h a (List.mem_cons_of_mem b ha)

/-- Folding `min` over copies of the start leaves the start. -/
theorem foldl_min_all_eq {s : ℚ} : ∀ {rest : List ℚ}, (∀ a ∈ rest, a = s) →
    rest.foldl min s = s := by
  intro rest
  induction rest with
  | nil => intro _; rfl
  | cons b t ih =>
      intro h
      have hb : b = s := h b (List.mem_cons_self b t)
      simp only [List.foldl_cons, hb, min_self]
      exact ih fun a ha => h a (List.mem_cons_of_mem b ha)

/-- The fourth power of `pow10 (1/4)` is `10`. -/
theorem pow10_quarter_pow : pow10 (1 / 4) ^ (4 : ℕ) = 10 := by
  rw [pow10, ← Real.rpow_natCast ((10:ℝ) ^ (((1:ℚ)/4 : ℚ) : ℝ)) 4,
    ← Real.rpow_mul (by norm_num)]
  norm_num

/-- The square of `pow10 (1/2)` is `10`. -/
theorem pow10_half_pow : pow10 (1 / 2) ^ (2 : ℕ) = 10 := by
  rw [pow10, ← Real.rpow_natCast ((10:ℝ) ^ (((1:ℚ)/2 : ℚ) : ℝ)) 2,
    ← Real.rpow_mul (by norm_num)]
  norm_num

/-- Rational bracket around `10^(1/4) ≈ 1.77828`. -/
theorem pow10_quarter_bounds : (1.778 : ℝ) < pow10 (1 / 4) ∧ pow10 (1 / 4) < 1.77835 := by
  have hpos : (0 : ℝ) ≤ pow10 (1 / 4) := le_of_lt (pow10_pos _)
  constructor
  · by_contra h
    push_neg at h
    have h4 : pow10 (1 / 4) ^ (4 : ℕ) ≤ (1.778 : ℝ) ^ (4 : ℕ) :=
      pow_le_pow_left hpos h 4
    rw [pow10_quarter_pow] at h4
    norm_num at h4
  · by_contra h
    push_neg at h
    have h4 : (1.77835 : ℝ) ^ (4 : ℕ) ≤ pow10 (1 / 4) ^ (4 : ℕ) :=
      pow_le_pow_left (by norm_num) h 4
    rw [pow10_quarter_pow] at h4
    norm_num at h4

/-- Rational bracket around `10^(1/2) ≈ 3.16228`. -/
theorem pow10_half_bounds : (3.162 : ℝ) < pow10 (1 / 2) ∧ pow10 (1 / 2) < 3.16232 := by
  have hpos : (0 : ℝ) ≤ pow10 (1 / 2) := le_of_lt (pow10_pos _)
  constructor
  · by_contra h
    push_neg at h
    have h2 : pow10 (1 / 2) ^ (2 : ℕ) ≤ (3.162 : ℝ) ^ (2 : ℕ) :=
      pow_le_pow_left hpos h 2
    rw [pow10_half_pow] at h2
    norm_num at h2
  · by_contra h
    push_neg at h
    have h2 : (3.16232 : ℝ) ^ (2 : ℕ) ≤ pow10 (1 / 2) ^ (2 : ℕ) :=
      pow_le_pow_left (by norm_num) h 2
    rw [pow10_half_pow] at h2
    norm_num at h2

/-- Two-decimal rounding of the doubled win rate at exponent `1/4`
(a 100-point Elo gap below the anchor): `71.99`. -/
theorem round2R_quarter : round2R (1 / (1 + pow10 (1 / 4)) * 200) = 7199 / 100 := by
  obtain ⟨hgt, hlt⟩ := pow10_quarter_bounds
  have hpos : (0 : ℝ) < 1 + pow10 (1 / 4) := by linarith
  have key : (1 / (1 + pow10 (1 / 4)) * 200) * 100 = 20000 / (1 + pow10 (1 / 4)) := by
    ring
  have hlow : (7198.5 : ℝ) ≤ 20000 / (1 + pow10 (1 / 4)) := by
    rw [le_div_iff hpos]
    nlinarith
  have hhigh : 20000 / (1 + pow10 (1 / 4)) < (7199.5 : ℝ) := by
    rw [div_lt_iff hpos]
    nlinarith
  rw [round2R_eq _ 7199 (by rw [key]; push_cast; linarith)
    (by rw [key]; push_cast; linarith)]
  norm_num

/-- Two-decimal rounding of the doubled win rate at exponent `1/2`
(a 200-point Elo gap below the anchor): `48.05`. -/
theorem round2R_half : round2R (1 / (1 + pow10 (1 / 2)) * 200) = 4805 / 100 := by
  obtain ⟨hgt, hlt⟩ := pow10_half_bounds
  have hpos : (0 : ℝ) < 1 + pow10 (1 / 2) := by linarith
  have key : (1 / (1 + pow10 (1 / 2)) * 200) * 100 = 20000 / (1 + pow10 (1 / 2)) := by
    ring
  have hlow : (4804.5 : ℝ) ≤ 20000 / (1 + pow10 (1 / 2)) := by
    rw [le_div_iff hpos]
    nlinarith
  have hhigh : 20000 / (1 + pow10 (1 / 2)) < (4805.5 : ℝ) := by
    rw [div_lt_iff hpos]
    nlinarith
  rw [round2R_eq _ 4805 (by rw [key]; push_cast; linarith)
    (by rw [key]; push_cast; linarith)]
  norm_num

/-- Evaluation rule for the general branch of `normalizeLMArena`. -/
theorem normalizeLMArena_eval (q s M m : ℚ) (l : List BVal) (rest : List ℚ)
    (hq : q ≠ 0) (hfm : l.filterMap validScore = s :: rest)
    (hM : rest.foldl max s = M) (hm : rest.foldl min s = m) (hne : M ≠ m) :
    normalizeLMArena (BVal.num q) l
      = some (round2R (1 / (1 + pow10 ((M - q) / 400)) * 200)) := by
  simp only [normalizeLMArena, if_neg hq, hfm, hM, hm]
  rw [if_neg hne]

/-- The pool `[1600, 1500]` normalizes its top rating `1600` to `100`. -/
theorem norm_pair_top : normalizeLMArena (BVal.num 1600) [BVal.num 1600, BVal.num 1500]
    = some 100 := by
  rw [normalizeLMArena_eval 1600 1600 1600 1500 _ [1500] (by norm_num) (by decide)
    (by norm_num [List.foldl]) (by norm_num [List.foldl]) (by norm_num)]
  have he : ((1600 : ℚ) - 1600) / 400 = 0 := by norm_num
  rw [he, pow10_zero]
  have h100 : (1 : ℝ) / (1 + 1) * 200 = 100 := by norm_num
  rw [h100, round2R_hundred]

/-- The pool `[1600, 1500]` normalizes its second rating `1500` to `71.99`. -/
theorem norm_pair_second : normalizeLMArena (BVal.num 1500) [BVal.num 1600, BVal.num 1500]
    = some (7199 / 100) := by
  rw [normalizeLMArena_eval 1500 1600 1600 1500 _ [1500] (by norm_num) (by decide)
    (by norm_num [List.foldl]) (by norm_num [List.foldl]) (by norm_num)]
  have he : ((1600 : ℚ) - 1500) / 400 = 1 / 4 := by norm_num
  rw [he, round2R_quarter]

/-- Adding a higher-rated model: in the pool `[1700, 1600, 1500]` the
rating `1600` normalizes to `71.99`. -/
theorem norm_triple_1600 :
    normalizeLMArena (BVal.num 1600) [BVal.num 1700, BVal.num 1600, BVal.num 1500]
      = some (7199 / 100) := by
  rw [normalizeLMArena_eval 1600 1700 1700 1500 _ [1600, 1500] (by norm_num) (by decide)
    (by norm_num [List.foldl]) (by norm_num [List.foldl]) (by norm_num)]
  have he : ((1700 : ℚ) - 1600) / 400 = 1 / 4 := by norm_num
  rw [he, round2R_quarter]

/-- Adding a higher-rated model: in the pool `[1700, 1600, 1500]` the
rating `1500` normalizes to `48.05`. -/
theorem norm_triple_1500 :
    normalizeLMArena (BVal.num 1500) [BVal.num 1700, BVal.num 1600, BVal.num 1500]
      = some (4805 / 100) := by
  rw [normalizeLMArena_eval 1500 1700 1700 1500 _ [1600, 1500] (by norm_num) (by decide)
    (by norm_num [List.foldl]) (by norm_num [List.foldl]) (by norm_num)]
  have he : ((1700 : ℚ) - 1500) / 400 = 1 / 2 := by norm_num
  rw [he, round2R_half]

/-- Two-decimal rounding keeps a rational in `[0, 100]`. -/
theorem round2Q_bounds {x : ℚ} (h0 : 0 ≤ x) (h1 : x ≤ 100) :
    0 ≤ round2Q x ∧ round2Q x ≤ 100 := by
  unfold round2Q
  have hfl : (0 : ℤ) ≤ ⌊x * 100 + 1 / 2⌋ := Int.floor_nonneg.mpr (by linarith)
  have hfu : ⌊x * 100 + 1 / 2⌋ ≤ (10000 : ℤ) := by
    calc ⌊x * 100 + 1 / 2⌋ ≤ ⌊(20001 : ℚ) / 2⌋ := Int.floor_le_floor (by linarith)
      _ = 10000 := Int.floor_eq_iff.mpr (by norm_num)
  constructor
  · apply div_nonneg _ (by norm_num)
    exact_mod_cast hfl
  · rw [div_le_iff (by norm_num : (0 : ℚ) < 100)]
    calc ((⌊x * 100 + 1 / 2⌋ : ℤ) : ℚ) ≤ ((10000 : ℤ) : ℚ) := by exact_mod_cast hfu
      _ = 100 * 100 := by norm_num

/-- Two-decimal rounding keeps a real in `[0, 100]` in `[0, 100]`. -/
theorem round2R_bounds {x : ℝ} (h0 : 0 ≤ x) (h1 : x ≤ 100) :
    0 ≤ round2R x ∧ round2R x ≤ 100 := by
  unfold round2R
  have hfl : (0 : ℤ) ≤ ⌊x * 100 + 1 / 2⌋ := Int.floor_nonneg.mpr (by linarith)
  have hfu : ⌊x * 100 + 1 / 2⌋ ≤ (10000 : ℤ) := by
    calc ⌊x * 100 + 1 / 2⌋ ≤ ⌊(20001 : ℝ) / 2⌋ := Int.floor_le_floor (by linarith)
      _ = 10000 := Int.floor_eq_iff.mpr (by norm_num)
  constructor
  · apply div_nonneg _ (by norm_num)
    exact_mod_cast hfl
  · rw [div_le_iff (by norm_num : (0 : ℚ) < 100)]
    calc ((⌊x * 100 + 1 / 2⌋ : ℤ) : ℚ) ≤ ((10000 : ℤ) : ℚ) := by exact_mod_cast hfu
      _ = 100 * 100 := by norm_num

/-- The running sums of the aggregator loop over in-range items: the score
sum is non-negative and at most `100 ×` the weight sum. -/
theorem waFold_bounds (items : List (Option ℚ × ℚ)) (h : ∀ it ∈ items, okItem it) :
    0 ≤ (items.foldl waStep (0, 0)).1
      ∧ (items.foldl waStep (0, 0)).1 ≤ 100 * (items.foldl waStep (0, 0)).2
      ∧ 0 ≤ (items.foldl waStep (0, 0)).2 := by
  induction items with
  | nil => norm_num
  | cons it rest ih =>
      obtain ⟨hA, hAB, hB⟩ := ih fun i hi => h i (List.mem_cons_of_mem it hi)
      obtain ⟨hval, hwt⟩ := h it (List.mem_cons_self it rest)
      rcases it with ⟨v, wt⟩
      cases v with
      | none =>
          simpa [waStep] using ⟨hA, hAB, hB⟩
      | some x =>
          obtain ⟨hx0, hx1⟩ := hval x rfl
          simp only [List.foldl_cons, waStep]
          rw [waFold_shift rest (0 + x * wt) (0 + wt)]
          simp only at hwt
          have hxw : x * wt ≤ 100 * wt := mul_le_mul_of_nonneg_right hx1 hwt
          have hxw0 : 0 ≤ x * wt := mul_nonneg hx0 hwt
          refine ⟨?_, ?_, ?_⟩
          · show 0 ≤ 0 + x * wt + (List.foldl waStep (0, 0) rest).1
            linarith
          · show 0 + x * wt + (List.foldl waStep (0, 0) rest).1
              ≤ 100 * (0 + wt + (List.foldl waStep (0, 0) rest).2)
            linarith
          · show 0 ≤ 0 + wt + (List.foldl waStep (0, 0) rest).2
            linarith

/-- The aggregator's output over in-range items lies in `[0, 100]`. -/
theorem weightedAverage_bounds (items : List (Option ℚ × ℚ))
    (h : ∀ it ∈ items, okItem it) :
    0 ≤ weightedAverage items ∧ weightedAverage items ≤ 100 := by
  obtain ⟨hA, hAB, hB⟩ := waFold_bounds items h
  by_cases h0 : (items.foldl waStep (0, 0)).2 = 0
  · have hz : weightedAverage items = 0 := by
      unfold weightedAverage
      exact if_pos h0
    rw [hz]
    norm_num
  · have hz : weightedAverage items
        = round2Q ((items.foldl waStep (0, 0)).1 / (items.foldl waStep (0, 0)).2) := by
      unfold weightedAverage
      exact if_neg h0
    rw [hz]
    have hBpos : 0 < (items.foldl waStep (0, 0)).2 := lt_of_le_of_ne hB (Ne.symm h0)
    apply round2Q_bounds
    · exact div_nonneg hA hB
    · rw [div_le_iff hBpos]
      linarith

/-- Whatever value `normalizeLMArena` produces for a rating that belongs
to the pool lies in `[0, 100]`. -/
theorem normalizeLMArena_bounds {score : BVal} {l : List BVal} (hmem : score ∈ l)
    {r : ℚ} (h : normalizeLMArena score l = some r) : 0 ≤ r ∧ r ≤ 100 := by
  cases score with
  | null => simp [normalizeLMArena] at h
  | undef => simp [normalizeLMArena] at h
  | num q =>
      by_cases hq : q = 0
      · simp [normalizeLMArena, hq] at h
      · have hqmem : q ∈ l.filterMap validScore :=
          List.mem_filterMap.mpr ⟨BVal.num q, hmem, by simp [validScore, hq]⟩
        cases hfm : l.filterMap validScore with
        | nil => rw [hfm] at hqmem; cases hqmem
        | cons s rest =>
            rw [hfm] at hqmem
            simp only [normalizeLMArena, if_neg hq, hfm] at h
            by_cases hmm : rest.foldl max s = rest.foldl min s
            · rw [if_pos hmm] at h
              have := Option.some.inj h
              subst this
              norm_num
            · rw [if_neg hmm] at h
              have hr := Option.some.inj h
              subst hr
              have hqM : q ≤ rest.foldl max s := by
                rcases List.mem_cons.mp hqmem with h' | h'
                · exact h' ▸ init_le_foldl_max rest s
                · exact mem_le_foldl_max rest s q h'
              have he : (0 : ℚ) ≤ (rest.foldl max s - q) / 400 :=
                div_nonneg (sub_nonneg.mpr hqM) (by norm_num)
              have hp : (1 : ℝ) ≤ pow10 ((rest.foldl max s - q) / 400) := one_le_pow10 he
              have hden : (0 : ℝ) < 1 + pow10 ((rest.foldl max s - q) / 400) := by linarith
              apply round2R_bounds
              · positivity
              · have hhalf : 1 / (1 + pow10 ((rest.foldl max s - q) / 400)) ≤ (1 : ℝ) / 2 :=
                  one_div_le_one_div_of_le (by norm_num) (by linarith)
                nlinarith

/-- A `getBenchmark` read of an in-range raw record is in range when present. -/
theorem getBenchmark_bounds {bm : BenchmarkRecord} {key : String}
    (hk : ∀ q : ℚ, bm key = BVal.num q → 0 ≤ q ∧ q ≤ 100) (w : ℚ) (hw : 0 ≤ w) :
    okItem (getBenchmark bm key, w) := by
  refine ⟨?_, hw⟩
  intro v hv
  simp only at hv
  cases hval : bm key with
  | null => simp [getBenchmark, hval] at hv
  | undef => simp [getBenchmark, hval] at hv
  | num q =>
      simp only [getBenchmark, hval] at hv
      by_cases h0 : q = 0
      · simp [h0] at hv
      · rw [if_neg h0] at hv
        exact Option.some.inj hv ▸ hk q hval

/-- A normalized LM Arena value of a model in the candidate set is in
range when present. -/
theorem getLMArena_bounds {model : Model} {allModels : List Model} (key : String)
    (hmem : model ∈ allModels) (w : ℚ) (hw : 0 ≤ w) :
    okItem (getLMArena model allModels key, w) := by
  refine ⟨?_, hw⟩
  intro v hv
  have hv' : normalizeLMArena (model.benchmarks key)
      (allModels.map fun m => m.benchmarks key) = some v := hv
  exact normalizeLMArena_bounds
    (List.mem_map_of_mem (fun m => m.benchmarks key) hmem) hv'

/-- The hallucination-resistance contribution of an in-range raw record
is in range when present. -/
theorem hallResistance_bounds {bm : BenchmarkRecord}
    (hk : ∀ q : ℚ, bm "AA-Omniscience Hallucination Rate" = BVal.num q → 0 ≤ q ∧ q ≤ 100)
    (w : ℚ) (hw : 0 ≤ w) : okItem (hallResistance bm, w) := by
  refine ⟨?_, hw⟩
  intro v hv
  simp only at hv
  cases hval : bm "AA-Omniscience Hallucination Rate" with
  | null => simp [hallResistance, hval] at hv
  | undef => simp [hallResistance, hval] at hv
  | num q =>
      simp only [hallResistance, hval] at hv
      obtain ⟨h0, h1⟩ := hk q hval
      have := Option.some.inj hv
      subst this
      constructor <;> linarith

/-- Shifting the start of a `foldl (+)`. -/
theorem foldl_add_shift : ∀ (l : List ℚ) (s : ℚ), l.foldl (· + ·) s = s + l.foldl (· + ·) 0 := by
  intro l
  induction l with
  | nil => intro s; simp
  | cons b t ih =>
      intro s
      simp only [List.foldl_cons]
      rw [ih (s + b), ih (0 + b)]
      ring

/-- A `foldl (+)` of values in `[0, 100]` lies in `[0, 100 × length]`. -/
theorem foldl_add_bounds (l : List ℚ) (h : ∀ x ∈ l, 0 ≤ x ∧ x ≤ 100) :
    0 ≤ l.foldl (· + ·) 0 ∧ l.foldl (· + ·) 0 ≤ 100 * (l.length : ℚ) := by
  induction l with
  | nil => norm_num
  | cons b t ih =>
      obtain ⟨hA, hB⟩ := ih fun x hx => h x (List.mem_cons_of_mem b hx)
      obtain ⟨hb0, hb1⟩ := h b (List.mem_cons_self b t)
      simp only [List.foldl_cons, List.length_cons]
      have hs : List.foldl (· + ·) (0 + b) t = (0 + b) + List.foldl (· + ·) 0 t :=
        foldl_add_shift t (0 + b)
      push_cast
      constructor <;> linarith [hs]

/-- Range of the `general_knowledge` category for an in-range model of the
candidate set. -/
theorem general_knowledge_bounds {model : Model} {allModels : List Model}
    (hmem : model ∈ allModels)
    (habs : ∀ k ∈ absoluteKeys, ∀ q : ℚ, model.benchmarks k = BVal.num q → 0 ≤ q ∧ q ≤ 100) :
    0 ≤ general_knowledge model allModels ∧ general_knowledge model allModels ≤ 100 := by
  apply weightedAverage_bounds
  intro it hit
  simp only [List.mem_cons, List.not_mem_nil, or_false] at hit
  rcases hit with h | h | h <;> subst h
  · exact getBenchmark_bounds (habs "MMLU Pro" (by decide)) 5 (by norm_num)
  · exact getBenchmark_bounds (habs "GPQA Diamond" (by decide)) 1 (by norm_num)
  · exact getLMArena_bounds "LMArena-Text" hmem 2 (by norm_num)

/-- Range of the `expert_knowledge` category. -/
theorem expert_knowledge_bounds {model : Model} {allModels : List Model}
    (hmem : model ∈ allModels)
    (habs : ∀ k ∈ absoluteKeys, ∀ q : ℚ, model.benchmarks k = BVal.num q → 0 ≤ q ∧ q ≤ 100) :
    0 ≤ expert_knowledge model allModels ∧ expert_knowledge model allModels ≤ 100 := by
  apply weightedAverage_bounds
  intro it hit
  simp only [List.mem_cons, List.not_mem_nil, or_false] at hit
  rcases hit with h | h | h | h | h <;> subst h
  · exact getBenchmark_bounds (habs "MMLU Pro" (by decide)) 2 (by norm_num)
  · exact getBenchmark_bounds (habs "GPQA Diamond" (by decide)) 4 (by norm_num)
  · exact getBenchmark_bounds (habs "Humanity\x27s Last Exam" (by decide)) 6 (by norm_num)
  · exact getLMArena_bounds "LMArena-Text-Expert" hmem 2 (by norm_num)
  · exact getLMArena_bounds "LMArena-Text-Hard-Prompts" hmem 2 (by norm_num)

/-- Range of the `general_reasoning` category. -/
theorem general_reasoning_bounds {model : Model} {allModels : List Model}
    (hmem : model ∈ allModels)
    (habs : ∀ k ∈ absoluteKeys, ∀ q : ℚ, model.benchmarks k = BVal.num q → 0 ≤ q ∧ q ≤ 100) :
    0 ≤ general_reasoning model allModels ∧ general_reasoning model allModels ≤ 100 := by
  apply weightedAverage_bounds
  intro it hit
  simp only [List.mem_cons, List.not_mem_nil, or_false] at hit
  rcases hit with h | h | h | h | h <;> subst h
  · exact getBenchmark_bounds (habs "MMLU Pro" (by decide)) 4 (by norm_num)
  · exact getBenchmark_bounds (habs "GPQA Diamond" (by decide)) 3 (by norm_num)
  · exact getBenchmark_bounds (habs "Humanity\x27s Last Exam" (by decide)) 2 (by norm_num)
  · exact getBenchmark_bounds (habs "AA-LCR" (by decide)) 3 (by norm_num)
  · exact getLMArena_bounds "LMArena-Text-Hard-Prompts" hmem 1 (by norm_num)

/-- Range of the `math_reasoning` category. -/
theorem math_reasoning_bounds {model : Model} {allModels : List Model}
    (hmem : model ∈ allModels)
    (habs : ∀ k ∈ absoluteKeys, ∀ q : ℚ, model.benchmarks k = BVal.num q → 0 ≤ q ∧ q ≤ 100) :
    0 ≤ math_reasoning model allModels ∧ math_reasoning model allModels ≤ 100 := by
  apply weightedAverage_bounds
  intro it hit
  simp only [List.mem_cons, List.not_mem_nil, or_false] at hit
  rcases hit with h | h | h | h | h <;> subst h
  · exact getBenchmark_bounds (habs "GPQA Diamond" (by decide)) 2 (by norm_num)
  · exact getBenchmark_bounds (habs "AIME 2025" (by decide)) 7 (by norm_num)
  · exact getLMArena_bounds "LMArean-Text-Math" hmem 4 (by norm_num)
  · exact getBenchmark_bounds (habs "MMLU Pro" (by decide)) 1 (by norm_num)
  · exact getBenchmark_bounds (habs "Humanity\x27s Last Exam" (by decide)) 1 (by norm_num)

/-- Range of the `coding` category. -/
theorem coding_bounds {model : Model} {allModels : List Model}
    (hmem : model ∈ allModels)
    (habs : ∀ k ∈ absoluteKeys, ∀ q : ℚ, model.benchmarks k = BVal.num q → 0 ≤ q ∧ q ≤ 100) :
    0 ≤ coding model allModels ∧ coding model allModels ≤ 100 := by
  apply weightedAverage_bounds
  intro it hit
  simp only [List.mem_cons, List.not_mem_nil, or_false] at hit
  rcases hit with h | h | h <;> subst h
  · exact getBenchmark_bounds (habs "LiveCodeBench" (by decide)) 5 (by norm_num)
  · exact getBenchmark_bounds (habs "SciCode" (by decide)) 3 (by norm_num)
  · exact getLMArena_bounds "LMArena-Text-Coding" hmem 3 (by norm_num)

/-- Range of the `vision` category. -/
theorem vision_bounds {model : Model} {allModels : List Model}
    (hmem : model ∈ allModels)
    (habs : ∀ k ∈ absoluteKeys, ∀ q : ℚ, model.benchmarks k = BVal.num q → 0 ≤ q ∧ q ≤ 100) :
    0 ≤ vision model allModels ∧ vision model allModels ≤ 100 := by
  apply weightedAverage_bounds
  intro it hit
  simp only [List.mem_cons, List.not_mem_nil, or_false] at hit
  rcases hit with h | h | h <;> subst h
  · exact getLMArena_bounds "LMArena-Text" hmem 1 (by norm_num)
  · exact getBenchmark_bounds (habs "MMMU Pro" (by decide)) 8 (by norm_num)
  · exact getLMArena_bounds "LMArena-Vision" hmem 3 (by norm_num)

/-- Range of the `long_context` category. -/
theorem long_context_bounds {model : Model} {allModels : List Model}
    (hmem : model ∈ allModels)
    (habs : ∀ k ∈ absoluteKeys, ∀ q : ℚ, model.benchmarks k = BVal.num q → 0 ≤ q ∧ q ≤ 100) :
    0 ≤ long_context model allModels ∧ long_context model allModels ≤ 100 := by
  apply weightedAverage_bounds
  intro it hit
  simp only [List.mem_cons, List.not_mem_nil, or_false] at hit
  rcases hit with h | h | h | h | h <;> subst h
  · exact getBenchmark_bounds (habs "AA-LCR" (by decide)) 4 (by norm_num)
  · exact getLMArena_bounds "LMArena-Text-Longer-Query" hmem 1 (by norm_num)
  · exact getLMArena_bounds "LMArena-Text-Multi-Turn" hmem 1 (by norm_num)
  · exact getBenchmark_bounds (habs "AA-Omniscience Accuracy" (by decide)) 2 (by norm_num)
  · exact getBenchmark_bounds (habs "AA-Omniscience Hallucination Rate" (by decide)) 4 (by norm_num)

/-- Range of the `hallucination` category. -/
theorem hallucination_bounds {model : Model} {allModels : List Model}
    (hmem : model ∈ allModels)
    (habs : ∀ k ∈ absoluteKeys, ∀ q : ℚ, model.benchmarks k = BVal.num q → 0 ≤ q ∧ q ≤ 100) :
    0 ≤ hallucination model allModels ∧ hallucination model allModels ≤ 100 := by
  apply weightedAverage_bounds
  intro it hit
  simp only [List.mem_cons, List.not_mem_nil, or_false] at hit
  rcases hit with h | h | h | h <;> subst h
  · exact getBenchmark_bounds (habs "AA-LCR" (by decide)) 2 (by norm_num)
  · exact getBenchmark_bounds (habs "AA-Omniscience Accuracy" (by decide)) 4 (by norm_num)
  · exact hallResistance_bounds (habs "AA-Omniscience Hallucination Rate" (by decide)) 7
      (by norm_num)
  · exact getLMArena_bounds "LMArena-Text-Longer-Query" hmem 2 (by norm_num)

/-- Range of the `natural_speech` category. -/
theorem natural_speech_bounds {model : Model} {allModels : List Model}
    (hmem : model ∈ allModels)
    (habs : ∀ k ∈ absoluteKeys, ∀ q : ℚ, model.benchmarks k = BVal.num q → 0 ≤ q ∧ q ≤ 100) :
    0 ≤ natural_speech model allModels ∧ natural_speech model allModels ≤ 100 := by
  apply weightedAverage_bounds
  intro it hit
  simp only [List.mem_cons, List.not_mem_nil, or_false] at hit
  rcases hit with h | h | h | h | h <;> subst h
  · exact getBenchmark_bounds (habs "MMLU Pro" (by decide)) 3 (by norm_num)
  · exact getBenchmark_bounds (habs "AA-LCR" (by decide)) 2 (by norm_num)
  · exact getLMArena_bounds "LMArena-Text" hmem 2 (by norm_num)
  · exact getLMArena_bounds "LMArena-Text-Creative-Writing" hmem 2 (by norm_num)
  · exact getLMArena_bounds "LMArena-Text-Multi-Turn" hmem 2 (by norm_num)

/-- Every category lookup of the overall average is in range. -/
theorem catScore_bounds {model : Model} {allModels : List Model}
    (hmem : model ∈ allModels)
    (habs : ∀ k ∈ absoluteKeys, ∀ q : ℚ, model.benchmarks k = BVal.num q → 0 ≤ q ∧ q ≤ 100)
    (c : String) : 0 ≤ catScore model allModels c ∧ catScore model allModels c ≤ 100 := by
  unfold catScore
  split_ifs
  · exact general_knowledge_bounds hmem habs
  · exact expert_knowledge_bounds hmem habs
  · exact general_reasoning_bounds hmem habs
  · exact math_reasoning_bounds hmem habs
  · exact coding_bounds hmem habs
  · exact vision_bounds hmem habs
  · exact long_context_bounds hmem habs
  · exact hallucination_bounds hmem habs
  · exact natural_speech_bounds hmem habs
  · norm_num

/-- The overall score is in range. -/
theorem overallScore_bounds {model : Model} {allModels : List Model}
    (hmem : model ∈ allModels)
    (habs : ∀ k ∈ absoluteKeys, ∀ q : ℚ, model.benchmarks k = BVal.num q → 0 ≤ q ∧ q ≤ 100) :
    0 ≤ overallScore model allModels ∧ overallScore model allModels ≤ 100 := by
  have hall : ∀ x ∈ (categoriesToAverage model).map (catScore model allModels),
      0 ≤ x ∧ x ≤ 100 := by
    intro x hx
    obtain ⟨c, _, rfl⟩ := List.mem_map.mp hx
    exact catScore_bounds hmem habs c
  obtain ⟨hA, hB⟩ := foldl_add_bounds _ hall
  by_cases hlen : 0 < ((categoriesToAverage model).map (catScore model allModels)).length
  · have hz : overallScore model allModels
        = round2Q (((categoriesToAverage model).map (catScore model allModels)).foldl (· + ·) 0
            / (((categoriesToAverage model).map (catScore model allModels)).length : ℚ)) := by
      unfold overallScore
      exact if_pos hlen
    rw [hz]
    have hlen' : (0 : ℚ)
        < (((categoriesToAverage model).map (catScore model allModels)).length : ℚ) := by
      exact_mod_cast hlen
    apply round2Q_bounds
    · exact div_nonneg hA (le_of_lt hlen')
    · rw [div_le_iff hlen']
      linarith
  · have hz : overallScore model allModels = 0 := by
      unfold overallScore
      exact if_neg hlen
    rw [hz]
    norm_num

/-- Everything the selection loop returns comes from its input list. -/
theorem mem_selectGo : ∀ (l : List DModel) (maxM maxP t : ℕ) (counts : String → ℕ)
    (m : DModel), m ∈ selectGo l maxM maxP t counts → m ∈ l := by
  intro l
  induction l with
  | nil => intro _ _ _ _ m h; simp [selectGo] at h
  | cons a rest ih =>
      intro maxM maxP t counts m h
      simp only [selectGo] at h
      by_cases h1 : maxM ≤ t
      · rw [if_pos h1] at h; cases h
      · rw [if_neg h1] at h
        by_cases h2 : counts (providerOf a) < maxP
        · rw [if_pos h2] at h
          rcases List.mem_cons.mp h with h' | h'
          · exact h' ▸ List.mem_cons_self a rest
          · exact List.mem_cons_of_mem a (ih _ _ _ _ _ h')
        · rw [if_neg h2] at h
          exact List.mem_cons_of_mem a (ih _ _ _ _ _ h)

/-- Once the running total has reached the cap, the spec's walk selects
nothing more. -/
theorem selectGoSpec_saturated : ∀ (l : List DModel) (maxM maxP t : ℕ)
    (counts : String → ℕ), maxM ≤ t → selectGoSpec l maxM maxP t counts = [] := by
  intro l
  induction l with
  | nil => intro _ _ _ _ _; rfl
  | cons a rest ih =>
      intro maxM maxP t counts ht
      simp only [selectGoSpec]
      rw [if_neg (fun hco => absurd hco.1 (by omega))]
      exact ih _ _ _ _ ht

/-- The code's walk (which breaks at the total cap) selects exactly what
the specification's walk (which skips at the total cap) selects. -/
theorem selectGo_eq_spec : ∀ (l : List DModel) (maxM maxP t : ℕ) (counts : String → ℕ),
    selectGo l maxM maxP t counts = selectGoSpec l maxM maxP t counts := by
  intro l
  induction l with
  | nil => intro _ _ _ _; rfl
  | cons a rest ih =>
      intro maxM maxP t counts
      simp only [selectGo, selectGoSpec]
      by_cases h1 : maxM ≤ t
      · rw [if_pos h1, if_neg (fun hco => absurd hco.1 (by omega))]
        exact (selectGoSpec_saturated rest _ _ _ _ h1).symm
      · rw [if_neg h1]
        by_cases h2 : counts (providerOf a) < maxP
        · rw [if_pos h2, if_pos ⟨by omega, h2⟩, ih]
        · rw [if_neg h2, if_neg (fun hco => absurd hco.2 h2), ih]

/-- Walking a block of cap-saturating provider-`X` models followed by
non-`X` models selects `min (maxPerProvider - already counted) (block
length)` models of provider `X`. -/
theorem selectGo_countProvider (X : String) (maxM maxP : ℕ) (B : List DModel)
    (hB : ∀ m ∈ B, providerOf m ≠ X) :
    ∀ (A : List DModel) (t : ℕ) (counts : String → ℕ),
      (∀ m ∈ A, providerOf m = X) → t + A.length ≤ maxM →
      countProvider (selectGo (A ++ B) maxM maxP t counts) X
        = min (maxP - counts X) A.length := by
  intro A
  induction A with
  | nil =>
      intro t counts _ _
      have hz : ∀ m ∈ selectGo B maxM maxP t counts,
          ¬ ((fun m => decide (providerOf m = X)) m = true) := by
        intro m hm
        simpa using hB m (mem_selectGo B _ _ _ _ m hm)
      simp only [List.nil_append, List.length_nil]
      rw [countProvider, List.countP_eq_zero.mpr hz]
      omega
  | cons a A' ih =>
      intro t counts hA hlen
      have hpa : providerOf a = X := hA a (List.mem_cons_self a A')
      have hcX : counts (providerOf a) = counts X := by rw [hpa]
      simp only [List.cons_append, selectGo, List.length_cons, List.append_eq]
      rw [if_neg (by simp only [List.length_cons] at hlen; omega : ¬ maxM ≤ t)]
      by_cases hc : counts (providerOf a) < maxP
      · rw [if_pos hc]
        have hupd : (fun q => if q = providerOf a then counts (providerOf a) + 1 else counts q) X
            = counts X + 1 := by
          show (if X = providerOf a then counts (providerOf a) + 1 else counts X) = counts X + 1
          rw [if_pos hpa.symm, hcX]
        have hrec := ih (t + 1)
          (fun q => if q = providerOf a then counts (providerOf a) + 1 else counts q)
          (fun m hm => hA m (List.mem_cons_of_mem a hm))
          (by simp only [List.length_cons] at hlen; omega)
        rw [hupd] at hrec
        rw [countProvider, List.countP_cons]
        rw [countProvider] at hrec
        rw [hrec]
        have hone : (if (fun m => decide (providerOf m = X)) a then 1 else 0) = 1 := by
          simp [hpa]
        rw [hone]
        have : counts X < maxP := hcX ▸ hc
        omega
      · rw [if_neg hc]
        have hrec := ih t counts (fun m hm => hA m (List.mem_cons_of_mem a hm))
          (by simp only [List.length_cons] at hlen; omega)
        rw [hrec]
        have : ¬ counts X < maxP := hcX ▸ hc
        omega

/-- A list sorted descending by overall score in which every provider-`X`
model strictly outranks every other model splits as the `X` models
followed by the rest. -/
theorem sorted_sep_decomp (X : String) :
    ∀ l : List DModel, l.Sorted byOverallDesc →
      (∀ a ∈ l, ∀ b ∈ l, providerOf a = X → providerOf b ≠ X →
          overallOf b < overallOf a) →
      ∃ A B, l = A ++ B ∧ (∀ m ∈ A, providerOf m = X) ∧ (∀ m ∈ B, providerOf m ≠ X) := by
  intro l
  induction l with
  | nil => intro _ _; exact ⟨[], [], rfl, by simp, by simp⟩
  | cons m rest ih =>
      intro hs hsep
      by_cases hm : providerOf m = X
      · obtain ⟨A, B, hAB, hA, hB⟩ := ih hs.of_cons
          (fun a ha b hb => hsep a (List.mem_cons_of_mem m ha) b (List.mem_cons_of_mem m hb))
        refine ⟨m :: A, B, by simp [hAB], ?_, hB⟩
        intro x hx
        rcases List.mem_cons.mp hx with h | h
        · exact h ▸ hm
        · exact hA x h
      · refine ⟨[], m :: rest, rfl, by simp, ?_⟩
        intro b hb
        rcases List.mem_cons.mp hb with h | h
        · exact h ▸ hm
        · intro hbX
          have hlt : overallOf m < overallOf b :=
            hsep b (List.mem_cons_of_mem m h) m (List.mem_cons_self m rest) hbX hm
          have hle : overallOf b ≤ overallOf m := List.rel_of_sorted_cons hs b h
          exact absurd hlt (not_lt.mpr hle)

end EasyLLMScore

namespace EasyLLMScore

/-! Claim theorems. -/

/-- C3: the category aggregator sums `value × weight` and `weight` over
exactly the non-missing entries and returns `round2` of their quotient
(`0` when the total weight is `0`); `[(80, 2), (None, 5), (60, 1)]` yields
`73.33` and an all-missing list yields `0`. -/
theorem C3_weightedAverage_spec :
    (∀ items, weightedAverage items = weightedAverageSpec items)
      ∧ weightedAverage [(some 80, 2), (none, 5), (some 60, 1)] = 7333 / 100
      ∧ weightedAverage [(none, 3), (none, 1)] = 0 := by
  refine ⟨fun items => ?_, ?_, ?_⟩
  · simp only [weightedAverage, weightedAverageSpec, waFold_fst, waFold_snd]
  · simp only [weightedAverage, List.foldl_cons, List.foldl_nil, waStep]
    norm_num
    rw [round2Q_eq _ 7333 (by norm_num) (by norm_num)]
    norm_num
  · simp [weightedAverage, waStep]

/-- C8: a raw value of `0`, `null` or an absent key is uniformly read as a
missing measurement: `getBenchmark` returns the missing sentinel in all
three cases, `normalizeLMArena` returns missing whenever the model's own
rating is missing, and a missing value enters the aggregator as an absent
contribution (dropping it leaves the aggregate unchanged), not as zero. -/
theorem C8_missing_sentinels :
    (∀ (bm : BenchmarkRecord) (key : String),
        bm key = BVal.null ∨ bm key = BVal.undef ∨ bm key = BVal.num 0 →
        getBenchmark bm key = none)
      ∧ (∀ l, normalizeLMArena BVal.null l = none)
      ∧ (∀ l, normalizeLMArena BVal.undef l = none)
      ∧ (∀ l, normalizeLMArena (BVal.num 0) l = none)
      ∧ (∀ (w : ℚ) (rest : List (Option ℚ × ℚ)),
          weightedAverage ((none, w) :: rest) = weightedAverage rest) := by
  refine ⟨?_, fun l => rfl, fun l => rfl, ?_, ?_⟩
  · intro bm key h
    rcases h with h | h | h <;> simp [getBenchmark, h]
  · intro l; simp [normalizeLMArena]
  · intro w rest; simp [weightedAverage, waStep]

/-- C4: degenerate distributions in the relative-score normalizer: an
empty valid pool yields `0` (for a model whose own rating is non-missing),
a spread-free valid pool yields `100`, and in particular ratings
`[1500, 1500, 1500]` all normalize to `100`. -/
theorem C4_degenerate_distributions :
    (∀ (q : ℚ), q ≠ 0 → ∀ l : List BVal, l.filterMap validScore = [] →
        normalizeLMArena (BVal.num q) l = some 0)
      ∧ (∀ (q : ℚ), q ≠ 0 → ∀ (l : List BVal) (s : ℚ) (rest : List ℚ),
          l.filterMap validScore = s :: rest → (∀ a ∈ rest, a = s) →
          normalizeLMArena (BVal.num q) l = some 100)
      ∧ normalizeLMArena (BVal.num 1500)
          [BVal.num 1500, BVal.num 1500, BVal.num 1500] = some 100 := by
  refine ⟨?_, ?_, ?_⟩
  · intro q hq l hl
    simp [normalizeLMArena, hq, hl]
  · intro q hq l s rest hl hall
    simp only [normalizeLMArena, if_neg hq, hl]
    rw [foldl_max_all_eq hall, foldl_min_all_eq hall]
    simp
  · have hfm : List.filterMap validScore [BVal.num 1500, BVal.num 1500, BVal.num 1500]
        = [1500, 1500, 1500] := by decide
    norm_num [normalizeLMArena, hfm, List.foldl, max_self, min_self]

/-- C4 witness: the two degenerate branches at concrete inputs. -/
theorem C4_degenerate_distributions_witness :
    normalizeLMArena (BVal.num 5) [BVal.null, BVal.num 0] = some 0
      ∧ normalizeLMArena (BVal.num 7) [BVal.num 2, BVal.num 2] = some 100 :=
  ⟨C4_degenerate_distributions.1 5 (by norm_num) _ (by decide),
   C4_degenerate_distributions.2.1 7 (by norm_num) _ 2 [2] (by decide)
     (by intro a ha; simpa using ha)⟩

/-- C9: with at least two distinct valid ratings in the pool, the model
whose rating equals the maximum valid rating normalizes to exactly `100`:
the implementation multiplies the 0.5 win probability by the fixed scale
constant 200. -/
theorem C9_top_model_is_100 (q : ℚ) (l : List BVal) (hq : q ≠ 0)
    (hmem : BVal.num q ∈ l)
    (hmax : ∀ a ∈ l.filterMap validScore, a ≤ q)
    (hspread : ∃ b ∈ l.filterMap validScore, b ≠ q) :
    normalizeLMArena (BVal.num q) l = some 100 := by
  have hqmem : q ∈ l.filterMap validScore :=
    List.mem_filterMap.mpr ⟨BVal.num q, hmem, by simp [validScore, hq]⟩
  cases hfm : l.filterMap validScore with
  | nil => rw [hfm] at hqmem; cases hqmem
  | cons s rest =>
      rw [hfm] at hqmem hmax hspread
      have hsq : s ≤ q := hmax s (List.mem_cons_self s rest)
      have hM : rest.foldl max s = q :=
        le_antisymm (foldl_max_le rest s q hsq fun a ha => hmax a (List.mem_cons_of_mem s ha))
          (mem_le_foldl_max (s :: rest) s q hqmem |>.trans_eq (by simp))
      obtain ⟨b, hb, hbq⟩ := hspread
      have hblt : b < q := lt_of_le_of_ne (hmax b hb) hbq
      have hmlt : rest.foldl min s < q := by
        rcases List.mem_cons.mp hb with h | h
        · exact lt_of_le_of_lt (h ▸ foldl_min_le_init rest s) hblt
        · exact lt_of_le_of_lt (foldl_min_le_mem rest s b h) hblt
      have hne : ¬ rest.foldl max s = rest.foldl min s := by
        rw [hM]
        exact fun h => absurd (h ▸ hmlt) (lt_irrefl q)
      simp only [normalizeLMArena, if_neg hq, hfm, if_neg hne]
      rw [hM]
      have hz : (q - q) / 400 = 0 := by ring
      rw [hz, pow10_zero]
      have h100 : (1 : ℝ) / (1 + 1) * 200 = 100 := by norm_num
      rw [h100, round2R_hundred]

/-- C9 witness: rating 1600 is the maximum of the pool `[1600, 1500]` and
normalizes to exactly `100`. -/
theorem C9_top_model_is_100_witness :
    normalizeLMArena (BVal.num 1600) [BVal.num 1600, BVal.num 1500] = some 100 :=
  C9_top_model_is_100 1600 [BVal.num 1600, BVal.num 1500] (by norm_num)
    (by decide) (by decide) ⟨1500, by decide, by norm_num⟩

/-- C7: the imputation fallback is the element at index `floor(n × p)`,
clamped to `[0, n-1]`, of the ascending-sorted list of the `n` valid
(non-missing) values across all models — `p = 0.3` for the accuracy
benchmark and `p = 0.7` for the hallucination-rate benchmark — `0` when no
valid value exists; valid accuracy values `[10, 20, 30, 40, 50]` give
fallback `20`.  (Non-negativity of raw values makes the code's `v > 0`
filter agree with the spec's missingness rule.) -/
theorem C7_percentile_imputation :
    (∀ models : List Model,
        (∀ m ∈ models, ∀ q : ℚ,
            m.benchmarks "AA-Omniscience Accuracy" = BVal.num q → 0 ≤ q) →
        (∀ m ∈ models, ∀ q : ℚ,
            m.benchmarks "AA-Omniscience Hallucination Rate" = BVal.num q → 0 ≤ q) →
        (calculateFallbackValues models).accuracy
            = (sortAsc (validValues models "AA-Omniscience Accuracy")).getD
                (min (⌊((validValues models "AA-Omniscience Accuracy").length : ℚ) * (3 / 10)⌋).toNat
                  ((validValues models "AA-Omniscience Accuracy").length - 1)) 0
          ∧ (calculateFallbackValues models).hallRate
            = (sortAsc (validValues models "AA-Omniscience Hallucination Rate")).getD
                (min (⌊((validValues models "AA-Omniscience Hallucination Rate").length : ℚ) * (7 / 10)⌋).toNat
                  ((validValues models "AA-Omniscience Hallucination Rate").length - 1)) 0)
      ∧ (calculateFallbackValues exModelsC7).accuracy = 20 := by
  constructor
  · intro models hacc hhall
    have hposv : ∀ key : String,
        (∀ m ∈ models, ∀ q : ℚ, m.benchmarks key = BVal.num q → 0 ≤ q) →
        positiveValues models key = validValues models key := by
      intro key hkey
      unfold positiveValues validValues
      apply List.filterMap_congr
      intro m hm
      cases hv : m.benchmarks key with
      | null => rfl
      | undef => rfl
      | num q =>
          have hq : 0 ≤ q := hkey m hm q hv
          by_cases h0 : q = 0
          · simp [h0]
          · have hpos : 0 < q := lt_of_le_of_ne hq (Ne.symm h0)
            simp [hpos, h0]
    have hlen : ∀ v : List ℚ, (sortAsc v).length = v.length := fun v =>
      (List.perm_insertionSort _ v).length_eq
    constructor
    · rw [show (calculateFallbackValues models).accuracy
          = percentileAt (sortAsc (positiveValues models "AA-Omniscience Accuracy")) (3 / 10)
          from rfl,
        hposv _ (hacc)]
      unfold percentileAt
      rw [hlen]
      by_cases h0 : (validValues models "AA-Omniscience Accuracy").length = 0
      · have hnil : validValues models "AA-Omniscience Accuracy" = [] :=
          List.length_eq_zero.mp h0
        simp [h0, hnil, sortAsc]
      · rw [if_neg h0]
    · rw [show (calculateFallbackValues models).hallRate
          = percentileAt (sortAsc (positiveValues models "AA-Omniscience Hallucination Rate")) (7 / 10)
          from rfl,
        hposv _ (hhall)]
      unfold percentileAt
      rw [hlen]
      by_cases h0 : (validValues models "AA-Omniscience Hallucination Rate").length = 0
      · have hnil : validValues models "AA-Omniscience Hallucination Rate" = [] :=
          List.length_eq_zero.mp h0
        simp [h0, hnil, sortAsc]
      · rw [if_neg h0]
  · have hvals : positiveValues exModelsC7 "AA-Omniscience Accuracy" = [10, 20, 30, 40, 50] := by
      decide
    have hsorted : sortAsc [10, 20, 30, 40, 50] = ([10, 20, 30, 40, 50] : List ℚ) := by
      decide
    have hfloor : (⌊((5 : ℚ)) * (3 / 10)⌋).toNat = 1 := by
      rw [show ⌊((5 : ℚ)) * (3 / 10)⌋ = 1 from Int.floor_eq_iff.mpr (by norm_num)]
      rfl
    rw [show (calculateFallbackValues exModelsC7).accuracy
        = percentileAt (sortAsc (positiveValues exModelsC7 "AA-Omniscience Accuracy")) (3 / 10)
        from rfl, hvals, hsorted]
    unfold percentileAt
    norm_num [hfloor]

/-- C7 witness: the general equation instantiated at the five concrete
models, whose fallback is `20`. -/
theorem C7_percentile_imputation_witness :
    (calculateFallbackValues exModelsC7).accuracy
        = (sortAsc (validValues exModelsC7 "AA-Omniscience Accuracy")).getD
            (min (⌊((validValues exModelsC7 "AA-Omniscience Accuracy").length : ℚ) * (3 / 10)⌋).toNat
              ((validValues exModelsC7 "AA-Omniscience Accuracy").length - 1)) 0 :=
  (C7_percentile_imputation.1 exModelsC7
    (by
      intro m hm q hv
      simp only [exModelsC7, List.mem_cons, List.not_mem_nil, or_false] at hm
      rcases hm with h | h | h | h | h <;>
        (rw [h] at hv; simp [mkAccModel] at hv; linarith)
      )
    (by
      intro m hm q hv
      simp only [exModelsC7, List.mem_cons, List.not_mem_nil, or_false] at hm
      rcases hm with h | h | h | h | h <;>
        (rw [h] at hv; simp [mkAccModel] at hv)
      )).1

/-- C2 counterexample: the claim maps the top rating of `[1600, 1500]` to
`50` (scale 100); the code maps it to `100`, because its scale constant is
`200`, not `100`. -/
theorem C2_scale_counterexample :
    normalizeLMArena (BVal.num 1600) [BVal.num 1600, BVal.num 1500] ≠ some 50 := by
  rw [norm_pair_top]
  intro h
  have h50 : (100 : ℚ) = 50 := Option.some.inj h
  norm_num at h50

/-- C2 amended: with the code's fixed scale constant 200, the pool
`[1600, 1500]` normalizes its top rating to `100` and the second to
`round2(1/(1+10^(100/400))×200) = 71.99`; adding a higher-rated model
(rating 1700) to the candidate set changes both outputs (to `71.99` and
`48.05`). -/
theorem C2_anchor_sensitivity_scale200 :
    normalizeLMArena (BVal.num 1600) [BVal.num 1600, BVal.num 1500] = some 100
      ∧ normalizeLMArena (BVal.num 1500) [BVal.num 1600, BVal.num 1500] = some (7199 / 100)
      ∧ normalizeLMArena (BVal.num 1600) [BVal.num 1700, BVal.num 1600, BVal.num 1500]
          = some (7199 / 100)
      ∧ normalizeLMArena (BVal.num 1500) [BVal.num 1700, BVal.num 1600, BVal.num 1500]
          = some (4805 / 100)
      ∧ normalizeLMArena (BVal.num 1600) [BVal.num 1700, BVal.num 1600, BVal.num 1500]
          ≠ normalizeLMArena (BVal.num 1600) [BVal.num 1600, BVal.num 1500]
      ∧ normalizeLMArena (BVal.num 1500) [BVal.num 1700, BVal.num 1600, BVal.num 1500]
          ≠ normalizeLMArena (BVal.num 1500) [BVal.num 1600, BVal.num 1500] := by
  refine ⟨norm_pair_top, norm_pair_second, norm_triple_1600, norm_triple_1500, ?_, ?_⟩
  · rw [norm_pair_top, norm_triple_1600]
    intro h
    have h' : (7199 : ℚ) / 100 = 100 := Option.some.inj h
    norm_num at h'
  · rw [norm_pair_second, norm_triple_1500]
    intro h
    have h' : (4805 : ℚ) / 100 = 7199 / 100 := Option.some.inj h
    norm_num at h'

/-- C5: for a model with `supportsVision = false`, the overall score is
`round2` of the mean of the category scores with `vision` dropped from the
averaged list — eight categories in the denominator, `vision`'s value
absent from the numerator (not zeroed). -/
theorem C5_vision_excluded_from_overall (model : Model) (allModels : List Model)
    (h : model.supportsVision = JsVal.jbool false) :
    (calculateScores model allModels).overall
      = round2Q ((general_knowledge model allModels + expert_knowledge model allModels
          + general_reasoning model allModels + math_reasoning model allModels
          + coding model allModels + long_context model allModels
          + hallucination model allModels + natural_speech model allModels) / 8) := by
  show overallScore model allModels = _
  have hn : ¬ (model.supportsVision ≠ JsVal.jbool false) := by simp [h]
  unfold overallScore categoriesToAverage
  rw [if_neg hn]
  simp [SCORE_CATEGORIES, catScore]

/-- C5 witness: the eight-category overall at a concrete vision-less model. -/
theorem C5_vision_excluded_from_overall_witness :
    (calculateScores nullModelNoVision []).overall
      = round2Q ((general_knowledge nullModelNoVision [] + expert_knowledge nullModelNoVision []
          + general_reasoning nullModelNoVision [] + math_reasoning nullModelNoVision []
          + coding nullModelNoVision [] + long_context nullModelNoVision []
          + hallucination nullModelNoVision [] + natural_speech nullModelNoVision []) / 8) :=
  C5_vision_excluded_from_overall nullModelNoVision [] rfl

/-- C10: the `vision` category is dropped from the overall average only
when `supportsVision` is exactly the boolean `false`; for every other
value of the field (absent, `undefined`, `null`, a number, `true`), the
`vision` score is averaged in — nine categories in the denominator. -/
theorem C10_vision_included_unless_false (model : Model) (allModels : List Model)
    (h : model.supportsVision ≠ JsVal.jbool false) :
    (calculateScores model allModels).overall
      = round2Q ((general_knowledge model allModels + expert_knowledge model allModels
          + general_reasoning model allModels + math_reasoning model allModels
          + coding model allModels + vision model allModels + long_context model allModels
          + hallucination model allModels + natural_speech model allModels) / 9) := by
  show overallScore model allModels = _
  unfold overallScore categoriesToAverage
  rw [if_pos h]
  simp [SCORE_CATEGORIES, catScore]

/-- C10 witness: the nine-category overall at a concrete model whose
`supportsVision` field is `undefined`. -/
theorem C10_vision_included_unless_false_witness :
    (calculateScores nullModelVision []).overall
      = round2Q ((general_knowledge nullModelVision [] + expert_knowledge nullModelVision []
          + general_reasoning nullModelVision [] + math_reasoning nullModelVision []
          + coding nullModelVision [] + vision nullModelVision [] + long_context nullModelVision []
          + hallucination nullModelVision [] + natural_speech nullModelVision []) / 9) :=
  C10_vision_included_unless_false nullModelVision [] (by decide)

/-- C1 counterexample: all raw inputs of `badModel` are finite and
non-negative (its only benchmark value is `MMLU Pro = 200`), yet its
`general_knowledge` score is `200`, outside `[0, 100]`: non-negativity
alone does not bound the output. -/
theorem C1_bounds_counterexample :
    (calculateScores badModel [badModel]).general_knowledge = 200
      ∧ ¬ (calculateScores badModel [badModel]).general_knowledge ≤ 100 := by
  have h1 : getBenchmark badModel.benchmarks "MMLU Pro" = some 200 := by decide
  have h2 : getBenchmark badModel.benchmarks "GPQA Diamond" = none := by decide
  have h3 : getLMArena badModel [badModel] "LMArena-Text" = none := rfl
  have hgk : general_knowledge badModel [badModel] = 200 := by
    unfold general_knowledge
    rw [h1, h2, h3]
    simp only [weightedAverage, List.foldl_cons, List.foldl_nil, waStep]
    norm_num
    rw [round2Q_eq _ 20000 (by norm_num) (by norm_num)]
    norm_num
  have hfield : (calculateScores badModel [badModel]).general_knowledge
      = general_knowledge badModel [badModel] := rfl
  rw [hfield, hgk]
  norm_num

/-- C1 amended: for every model of the candidate set, every entry of the
computed scores object (each of the eleven category ids and `overall`) is
present and lies in `[0, 100]`, provided every raw absolute-benchmark
value present after imputation lies in `[0, 100]` (finite and non-negative
alone is not enough: an absolute value above 100 propagates past 100). -/
theorem C1_scores_bounded (model : Model) (allModels : List Model)
    (hmem : model ∈ allModels)
    (habs : ∀ k ∈ absoluteKeys, ∀ q : ℚ, model.benchmarks k = BVal.num q → 0 ≤ q ∧ q ≤ 100) :
    (0 ≤ (calculateScores model allModels).general_knowledge
        ∧ (calculateScores model allModels).general_knowledge ≤ 100)
      ∧ (0 ≤ (calculateScores model allModels).expert_knowledge
        ∧ (calculateScores model allModels).expert_knowledge ≤ 100)
      ∧ (0 ≤ (calculateScores model allModels).general_reasoning
        ∧ (calculateScores model allModels).general_reasoning ≤ 100)
      ∧ (0 ≤ (calculateScores model allModels).math_reasoning
        ∧ (calculateScores model allModels).math_reasoning ≤ 100)
      ∧ (0 ≤ (calculateScores model allModels).coding
        ∧ (calculateScores model allModels).coding ≤ 100)
      ∧ (0 ≤ (calculateScores model allModels).vision
        ∧ (calculateScores model allModels).vision ≤ 100)
      ∧ (0 ≤ (calculateScores model allModels).audio
        ∧ (calculateScores model allModels).audio ≤ 100)
      ∧ (0 ≤ (calculateScores model allModels).video
        ∧ (calculateScores model allModels).video ≤ 100)
      ∧ (0 ≤ (calculateScores model allModels).long_context
        ∧ (calculateScores model allModels).long_context ≤ 100)
      ∧ (0 ≤ (calculateScores model allModels).hallucination
        ∧ (calculateScores model allModels).hallucination ≤ 100)
      ∧ (0 ≤ (calculateScores model allModels).natural_speech
        ∧ (calculateScores model allModels).natural_speech ≤ 100)
      ∧ (0 ≤ (calculateScores model allModels).overall
        ∧ (calculateScores model allModels).overall ≤ 100) :=
  ⟨general_knowledge_bounds hmem habs,
   expert_knowledge_bounds hmem habs,
   general_reasoning_bounds hmem habs,
   math_reasoning_bounds hmem habs,
   coding_bounds hmem habs,
   vision_bounds hmem habs,
   by norm_num [calculateScores],
   by norm_num [calculateScores],
   long_context_bounds hmem habs,
   hallucination_bounds hmem habs,
   natural_speech_bounds hmem habs,
   overallScore_bounds hmem habs⟩

/-- C1 witness: the bounds instantiated at a concrete singleton candidate
set (the all-missing model), read off at the overall entry. -/
theorem C1_scores_bounded_witness :
    0 ≤ (calculateScores nullModelVision [nullModelVision]).overall
      ∧ (calculateScores nullModelVision [nullModelVision]).overall ≤ 100 :=
  (C1_scores_bounded nullModelVision [nullModelVision]
    (List.mem_singleton.mpr rfl)
    (by intro k hk q hq; simp [nullModelVision] at hq)).2.2.2.2.2.2.2.2.2.2.2

/-- C6: default selection sorts descending by overall score and walks the
list, selecting a model exactly when the running total is below
`maxModels` and its provider's running count is below `maxPerProvider`
(the code's early break is equivalent to the skip the claim describes);
consequently, whenever ten models of one provider strictly outrank every
other model, exactly four of them are selected. -/
theorem C6_default_selection_cap (models : List DModel) (X : String)
    (hcount : countProvider models X = 10)
    (hsep : ∀ a ∈ models, ∀ b ∈ models, providerOf a = X → providerOf b ≠ X →
        overallOf b < overallOf a) :
    countProvider (selectGo (sortByOverallDesc models) 20 4 0 (fun _ => 0)) X = 4
      ∧ (∀ (l : List DModel) (maxM maxP t : ℕ) (counts : String → ℕ),
          selectGo l maxM maxP t counts = selectGoSpec l maxM maxP t counts)
      ∧ selectDefaultModels models 20 4
          = (selectGo (sortByOverallDesc models) 20 4 0 (fun _ => 0)).map (fun m => m.id) := by
  refine ⟨?_, selectGo_eq_spec, rfl⟩
  have hperm : List.Perm (sortByOverallDesc models) models :=
    List.perm_insertionSort byOverallDesc models
  have hsorted : (sortByOverallDesc models).Sorted byOverallDesc :=
    List.sorted_insertionSort byOverallDesc models
  have hsep' : ∀ a ∈ sortByOverallDesc models, ∀ b ∈ sortByOverallDesc models,
      providerOf a = X → providerOf b ≠ X → overallOf b < overallOf a := by
    intro a ha b hb
    exact hsep a (hperm.mem_iff.mp ha) b (hperm.mem_iff.mp hb)
  obtain ⟨A, B, hAB, hA, hB⟩ := sorted_sep_decomp X _ hsorted hsep'
  have hcount' : countProvider (sortByOverallDesc models) X = 10 := by
    rw [countProvider, hperm.countP_eq]
    exact hcount
  have hAlen : A.length = 10 := by
    rw [hAB, countProvider, List.countP_append] at hcount'
    have hca : A.countP (fun m => decide (providerOf m = X)) = A.length :=
      List.countP_eq_length.mpr (fun m hm => by simpa using hA m hm)
    have hcb : B.countP (fun m => decide (providerOf m = X)) = 0 :=
      List.countP_eq_zero.mpr (fun m hm => by simpa using hB m hm)
    omega
  rw [hAB]
  rw [selectGo_countProvider X 20 4 B hB A 0 (fun _ => 0) hA (by omega)]
  rw [hAlen]
  rfl

/-- C6 witness: twelve concrete models, ten of provider `X` on top; the
walk selects exactly four `X` models. -/
theorem C6_default_selection_cap_witness :
    countProvider (selectGo (sortByOverallDesc exModelsC6) 20 4 0 (fun _ => 0)) "X" = 4 :=
  (C6_default_selection_cap exModelsC6 "X" (by decide) (by decide)).1

end EasyLLMScore
